import Mathlib

/-
  Verification development for the `koddsson/assert` assertion library
  (src/index.ts).  The library is a flat set of synchronous assertion
  functions: each one either returns normally (pass) or throws an Error
  produced by the shared `fail` primitive.  We embed the reachable
  behaviour shallowly:

  * JavaScript values are modelled by `Prim` (primitives, with finite
    numbers restricted to integers) and `JVal` (primitives plus plain
    key-value records; field lists are kept in property-enumeration
    order, which is the order `Object.keys` and `for..in` agree on).
    Object *reference* identity is not representable in a tree model;
    `sameRef` (the model of `===` inside `_deepEqual`) is therefore the
    primitive value identity and `false` on records, which is
    observationally faithful for finite acyclic records because the
    recursion returns `true` on structurally identical records anyway.
  * An assertion invocation is denoted by an `Outcome`: `pass` for a
    normal return, `failure msg` for an Error thrown by `fail msg`, and
    `error` for a host TypeError escaping `_deepEqual` (e.g. from
    `Object.keys(null)` or `'0' in "ab"`).  Because `fail` throws, any
    code after a `fail(...)` call in the source is unreachable; the
    Lean `if`/`match` translations below encode exactly that control
    flow.
  * The optional trailing `message` parameter is modelled as a
    `String`, with the omitted/`undefined` case represented by `""`
    (both are falsy, and the source only tests falsiness via
    `message || default`).
-/

set_option maxHeartbeats 1000000

namespace JsAssert

/-- JavaScript primitive values.  Finite numbers are modelled as
integers (`int`), `NaN` is a separate constructor; `-0`, infinities and
non-integral numbers play no role in any claim and are omitted from the
universe. -/
inductive Prim where
  | undefined
  | null
  | bool (b : Bool)
  | int (n : Int)
  | nan
  | str (s : String)
  deriving DecidableEq

/-- JavaScript values reachable by `_deepEqual`: primitives and plain
key-value records.  Field lists are stored in property-enumeration
order. -/
inductive JVal where
  | prim (p : Prim)
  | obj (fields : List (String × JVal))

/-- Result of one assertion invocation: normal return, an Error thrown
by `fail`, or a host TypeError propagating out of `_deepEqual`. -/
inductive Outcome where
  | pass
  | failure (msg : String)
  | error
  deriving DecidableEq

/-- `true` exactly when the invocation returned normally. -/
def passes : Outcome → Bool
  | .pass => true
  | _ => false

/-- `message || dflt` on strings: the empty string is the only falsy
string. -/
def msgOr (message dflt : String) : String :=
  if message = "" then dflt else message

/-- String coercion of a primitive, as used by template literals. -/
def fmtPrim : Prim → String
  | .undefined => "undefined"
  | .null => "null"
  | .bool b => if b then "true" else "false"
  | .int n => toString n
  | .nan => "NaN"
  | .str s => s

/-- String coercion of a value; plain objects stringify to
`[object Object]`. -/
def fmtJVal : JVal → String
  | .prim p => fmtPrim p
  | .obj _ => "[object Object]"

/-- JavaScript truthiness of a primitive. -/
def truthyPrim : Prim → Bool
  | .undefined => false
  | .null => false
  | .bool b => b
  | .int n => n != 0
  | .nan => false
  | .str s => s.length != 0

/-- JavaScript truthiness; every object is truthy. -/
def truthy : JVal → Bool
  | .prim p => truthyPrim p
  | .obj _ => true

/-- Strict equality `===` on primitives (`NaN === NaN` is false). -/
def primStrictEq : Prim → Prim → Bool
  | .undefined, .undefined => true
  | .null, .null => true
  | .bool x, .bool y => x == y
  | .int m, .int n => m == n
  | .str s, .str t => s == t
  | _, _ => false

/-- Parser for a non-empty decimal digit sequence; `none` on the empty
sequence or any non-digit character. -/
def parseDigits (cs : List Char) : Option Nat :=
  if cs.isEmpty then none
  else cs.foldl (fun acc c =>
    match acc with
    | none => none
    | some n => if c.isDigit then some (n * 10 + (c.toNat - 48)) else none) (some 0)

/-- `ToNumber` on strings, restricted to the integer literals the model
carries: the empty string coerces to `0`, decimal integer literals
(with an optional leading minus) to their value, everything else to
`NaN` (`none`).  Whitespace trimming and non-integer numeric syntax are
outside the model. -/
def strToNumber (s : String) : Option Int :=
  match s.data with
  | [] => some 0
  | '-' :: rest => (parseDigits rest).map (fun n => -(n : Int))
  | cs => (parseDigits cs).map (fun n => (n : Int))

/-- `ToNumber` on primitives (`none` is `NaN`). -/
def toNumberP : Prim → Option Int
  | .undefined => none
  | .null => some 0
  | .bool b => some (if b then 1 else 0)
  | .int n => some n
  | .nan => none
  | .str s => strToNumber s

/-- Numeric comparison after coercion; `NaN` compares unequal to
everything. -/
def numEq : Option Int → Option Int → Bool
  | some m, some n => m == n
  | _, _ => false

/-- Loose equality `==` on primitives (the Abstract Equality
comparison): null and undefined are mutually equal and equal to nothing
else, same-type comparisons are strict, and mixed
number/string/boolean comparisons coerce via `ToNumber`. -/
def looseEq : Prim → Prim → Bool
  | .undefined, .undefined => true
  | .undefined, .null => true
  | .null, .undefined => true
  | .null, .null => true
  | .undefined, _ => false
  | _, .undefined => false
  | .null, _ => false
  | _, .null => false
  | .str s, .str t => s == t
  | .bool x, .bool y => x == y
  | a, b => numEq (toNumberP a) (toNumberP b)

/-- SameValueZero, the comparison used by `Array.prototype.includes`:
like `===` except `NaN` equals `NaN`. -/
def sameValueZero : Prim → Prim → Bool
  | .nan, .nan => true
  | a, b => primStrictEq a b

/-- Property access `fields[key]` on a record's field list: the value
of the first field named `key`, or `undefined` when absent. -/
def lookupField : List (String × JVal) → String → JVal
  | [], _ => .prim .undefined
  | (k', v) :: rest, k => if k' == k then v else lookupField rest k

/-- The own enumerable keys of a value, in enumeration order, as
produced by `Object.keys` (also the `for..in` order for values without
inherited enumerable properties).  `null` and `undefined` make
`Object.keys` throw a TypeError (`none`); strings expose one index key
per character; other primitives have no own enumerable keys. -/
def jsKeys : JVal → Option (List String)
  | .prim .undefined => none
  | .prim .null => none
  | .prim (.str s) => some ((List.range s.data.length).map (fun i => toString i))
  | .prim _ => some []
  | .obj fields => some (fields.map Prod.fst)

/-- Property access `a[k]`: field lookup on records, single-character
strings on string index keys, `undefined` elsewhere. -/
def getProp : JVal → String → JVal
  | .obj fields, k => lookupField fields k
  | .prim (.str s), k =>
    match k.toNat? with
    | some i =>
      if h : i < s.data.length then .prim (.str (String.mk [s.data.get ⟨i, h⟩]))
      else .prim .undefined
    | none => .prim .undefined
  | .prim _, _ => .prim .undefined

/-- The `key in x` operator: own-key membership on plain records (the
model carries no prototype chains), a TypeError (`none`) on every
primitive. -/
def hasKeyIn (k : String) : JVal → Option Bool
  | .obj fields => some (fields.any (fun p => p.1 == k))
  | .prim _ => none

/-- The `a === b` short-circuit at the top of `_deepEqual`: value
identity on primitives.  Reference identity of records is not
representable in a tree model, so the record case is `false`; this is
observationally faithful because the recursion below returns `true` on
structurally identical finite records anyway. -/
def sameRef : JVal → JVal → Bool
  | .prim p, .prim q => primStrictEq p q
  | _, _ => false

/-- Size bound used for the termination of `_deepEqual`: a found field
value is smaller than the field list containing it. -/
def lookupField_sizeOf_lt :
    ∀ (bf : List (String × JVal)) (k : String),
      bf.any (fun p => p.1 == k) = true → sizeOf (lookupField bf k) < sizeOf bf := by
  intro bf k
  induction bf with
  | nil => intro h; simp at h
  | cons hd tl ih =>
    intro h
    obtain ⟨k', v⟩ := hd
    simp only [lookupField]
    by_cases hk : (k' == k) = true
    · rw [if_pos hk]
      simp only [List.cons.sizeOf_spec, Prod.mk.sizeOf_spec]
      omega
    · rw [if_neg hk]
      have hk' : (k' == k) = false := by
        cases hkk : (k' == k) with
        | false => rfl
        | true => exact absurd hkk hk
      simp only [List.any_cons, hk', Bool.false_or] at h
      have := ih h
      simp only [List.cons.sizeOf_spec]
      omega

mutual

/-- Shallow embedding of `_deepEqual(obj1, obj2)` from src/index.ts:

```
if (obj1 === obj2) return true
if (Object.keys(obj1).length !== Object.keys(obj2).length) return false
for (const key in obj1) {
  if (!(key in obj2)) return false
  if (!_deepEqual(obj1[key], obj2[key])) return false
}
return true
```

`some b` models a normal boolean return and `none` a thrown TypeError
(from `Object.keys` on `null`/`undefined`, or from `in` applied to a
primitive).  When `obj2` is a primitive the key loop over a non-empty
key list of `obj1` throws at its first `key in obj2` test, and an empty
key list falls through to `return true`. -/
def _deepEqual (a b : JVal) : Option Bool :=
  if sameRef a b then some true
  else
    match jsKeys a, jsKeys b with
    | none, _ => none
    | some _, none => none
    | some ka, some kb =>
      if ka.length ≠ kb.length then some false
      else
        match b with
        | .prim _ => if ka.isEmpty then some true else none
        | .obj bf => _deepEqualKeys a bf ka
termination_by (sizeOf b, 0)
decreasing_by
  apply Prod.Lex.left
  simp only [JVal.obj.sizeOf_spec]
  omega

/-- The `for (const key in obj1)` loop of `_deepEqual`, specialised to
a record `obj2` (field list `bf`): stop with `false` at the first key
missing from `obj2`, propagate the first thrown TypeError (`none`),
stop with `false` at the first recursive mismatch, return `true` when
the keys are exhausted. -/
def _deepEqualKeys (a : JVal) (bf : List (String × JVal)) (keys : List String) : Option Bool :=
  match keys with
  | [] => some true
  | k :: rest =>
    if h : bf.any (fun p => p.1 == k) = true then
      match _deepEqual (getProp a k) (lookupField bf k) with
      | none => none
      | some false => some false
      | some true => _deepEqualKeys a bf rest
    else some false
termination_by (sizeOf bf, keys.length + 1)
decreasing_by
  · apply Prod.Lex.left
    exact lookupField_sizeOf_lt bf k h
  · apply Prod.Lex.right
    simp only [List.length_cons]
    omega

end

/-- Pairwise distinctness of a key list, as a boolean. -/
def distinctKeys : List String → Bool
  | [] => true
  | k :: rest => !rest.contains k && distinctKeys rest

mutual

/-- Well-formedness of a value as a JavaScript runtime value: every
record in it has pairwise distinct field names (JavaScript objects
cannot carry duplicate keys; the list model can). -/
def wf : JVal → Bool
  | .prim _ => true
  | .obj fields => distinctKeys (fields.map Prod.fst) && wfFields fields

/-- All field values of a record are well-formed. -/
def wfFields : List (String × JVal) → Bool
  | [] => true
  | (_, v) :: rest => wf v && wfFields rest

end

/-- `fail(message)`: `throw new Error(message)` — always signals a
failure carrying exactly the given message. -/
def fail (message : String) : Outcome :=
  .failure message

/-- `isOk(thing, message)`: pass on truthy `thing`, otherwise
`fail(message || default)`. -/
def isOk (thing : JVal) (message : String) : Outcome :=
  if truthy thing then .pass
  else fail (msgOr message ("Expected " ++ fmtJVal thing ++ " to be ok"))

/-- `isNotOk(thing, message)`: pass on falsy `thing`. -/
def isNotOk (thing : JVal) (message : String) : Outcome :=
  if !truthy thing then .pass
  else fail (msgOr message ("Expected " ++ fmtJVal thing ++ " to be not ok"))

/-- `equal(actual, expected, message)`: pass when `actual == expected`
(loose equality). -/
def equal (actual expected : Prim) (message : String) : Outcome :=
  if looseEq actual expected then .pass
  else fail (msgOr message
    ("Expected " ++ fmtPrim actual ++ " and " ++ fmtPrim expected ++ " to be equal"))

/-- `notEqual(actual, expected, message)`: pass when
`actual != expected`, i.e. when loose equality does not hold. -/
def notEqual (actual expected : Prim) (message : String) : Outcome :=
  if !looseEq actual expected then .pass
  else fail (msgOr message
    ("Expected " ++ fmtPrim actual ++ " and " ++ fmtPrim expected ++ " to be not equal"))

/-- `strictEqual(actual, expected, message)`: pass when
`actual === expected`. -/
def strictEqual (actual expected : Prim) (message : String) : Outcome :=
  if primStrictEq actual expected then .pass
  else fail (msgOr message
    ("Expected " ++ fmtPrim actual ++ " and " ++ fmtPrim expected ++ " to be strict equal"))

/-- `notStrictEqual(actual, expected, message)`: pass when
`actual !== expected`. -/
def notStrictEqual (actual expected : Prim) (message : String) : Outcome :=
  if !primStrictEq actual expected then .pass
  else fail (msgOr message
    ("Expected " ++ fmtPrim actual ++ " and " ++ fmtPrim expected ++ " to be not strict equal"))

/-- `deepEqual(actual, expected, message)`: pass when
`_deepEqual(actual, expected)` returns true; a TypeError thrown inside
the comparison propagates (`error`). -/
def deepEqual (actual expected : JVal) (message : String) : Outcome :=
  match _deepEqual actual expected with
  | none => .error
  | some true => .pass
  | some false =>
    fail (msgOr message
      ("Expected " ++ fmtJVal expected ++ " to be equal " ++ fmtJVal actual))

/-- `notDeepEqual(actual, expected, message)`: pass when
`_deepEqual(actual, expected)` returns false; a TypeError thrown inside
the comparison propagates (`error`). -/
def notDeepEqual (actual expected : JVal) (message : String) : Outcome :=
  match _deepEqual actual expected with
  | none => .error
  | some false => .pass
  | some true =>
    fail (msgOr message
      ("Expected " ++ fmtJVal expected ++ " to be equal " ++ fmtJVal actual))

/-- Rendering of an array element inside `Array.prototype.toString`:
`null` and `undefined` render as the empty string, other elements by
their string coercion. -/
def fmtArrayElem : Prim → String
  | .undefined => ""
  | .null => ""
  | p => fmtPrim p

/-- String coercion of an array of primitives (`join(",")`). -/
def fmtPrimList (xs : List Prim) : String :=
  String.intercalate "," (xs.map fmtArrayElem)

/-- `Array.prototype.includes`: membership under SameValueZero. -/
def jsIncludes (haystack : List Prim) (needle : Prim) : Bool :=
  haystack.any (fun x => sameValueZero x needle)

/-- `include(haystack, needle, message)`: pass when
`haystack.includes(needle)`. -/
def include' (haystack : List Prim) (needle : Prim) (message : String) : Outcome :=
  if jsIncludes haystack needle then .pass
  else fail (msgOr message
    ("Expected " ++ fmtPrimList haystack ++ " to include " ++ fmtPrim needle))

/-- `notInclude(haystack, needle, message)`: pass when
`!haystack.includes(needle)`. -/
def notInclude (haystack : List Prim) (needle : Prim) (message : String) : Outcome :=
  if !jsIncludes haystack needle then .pass
  else fail (msgOr message
    ("Expected " ++ fmtPrimList haystack ++ " to not include " ++ fmtPrim needle))

/-- String coercion of a key array for the default messages of the key
assertions. -/
def fmtKeys (keys : List String) : String :=
  String.intercalate "," keys

/-- `hasAllKeys(thing, keys, message)` over a record's field list:

```
const objectKeys = Object.keys(thing)
const allKeys = objectKeys.length === keys.length
             && keys.every(key => objectKeys.includes(key))
```

pass exactly when `allKeys`. -/
def hasAllKeys (thing : List (String × JVal)) (keys : List String) (message : String) : Outcome :=
  let objectKeys := thing.map Prod.fst
  let allKeys := objectKeys.length == keys.length && keys.all (fun key => objectKeys.contains key)
  if allKeys then .pass
  else fail (msgOr message
    ("Expected " ++ fmtKeys objectKeys ++ " to include " ++ fmtKeys keys ++ " and only those keys"))

/-- `containsAllKeys(thing, keys, message)`: pass when every given key
is an own key of `thing` (`keys.every(key => Object.keys(thing).includes(key))`). -/
def containsAllKeys (thing : List (String × JVal)) (keys : List String) (message : String) : Outcome :=
  let allKeys := keys.all (fun key => (thing.map Prod.fst).contains key)
  if allKeys then .pass
  else fail (msgOr message
    ("Expected " ++ fmtKeys (thing.map Prod.fst) ++ " to include all the keys: " ++ fmtKeys keys))

/-- Observable behaviour of the thunk passed to `throws`: it returns
normally, throws an `Error` instance carrying a `.message` string, or
throws a value that is not an `Error` instance. -/
inductive FnOutcome where
  | ret
  | throwErr (message : String)
  | throwNonError
  deriving DecidableEq

/-- The `errorLike : string | RegExp` argument of `throws`, abstracted
to its observable interface: `text` is its string coercion (used in the
mismatch message) and `test msg` is the truthiness of
`msg.match(errorLike)`. -/
structure ErrorLike where
  text : String
  test : String → Bool

/-- `throws(fn, errorLike)`:

```
try { fn() } catch (error) {
  if (!(error instanceof Error)) return
  if (error.message.match(errorLike)) return
  fail(`Expected error message ... to match ...`)
}
fail(`Expected function to throw`)
```

The trailing `fail` runs only when `fn` returned normally, because
`fail` inside the catch block itself throws. -/
def throws (fn : FnOutcome) (errorLike : ErrorLike) : Outcome :=
  match fn with
  | .ret => fail "Expected function to throw"
  | .throwNonError => .pass
  | .throwErr msg =>
    if errorLike.test msg then .pass
    else fail ("Expected error message " ++ msg ++ " to match " ++ errorLike.text)

/-- Runtime shapes accepted by `isEmpty`/`isNotEmpty`
(`string | unknown[] | NodeList | Map | Set`), plus `other` for every
value of unrecognized shape (the TypeScript annotation is erased at
runtime).  A `Map` is carried as its deduplicated entry list, so `size`
is the list length. -/
inductive EmptyTarget where
  | str (s : String)
  | arr (elems : List Prim)
  | nodeList (count : Nat)
  | map (entries : List (Prim × Prim))
  | set (elems : List Prim)
  | other (v : JVal)

/-- The `length` of a target matching the first branch of `isEmpty`
(`typeof target === 'string' || target instanceof Array || target
instanceof NodeList`); `none` when the branch does not match. -/
def seqLength? : EmptyTarget → Option Nat
  | .str s => some s.length
  | .arr xs => some xs.length
  | .nodeList n => some n
  | _ => none

/-- The `size` of a target matching the second branch of `isEmpty`
(`target instanceof Map || target instanceof Set`); `none` when the
branch does not match. -/
def collSize? : EmptyTarget → Option Nat
  | .map es => some es.length
  | .set xs => some xs.length
  | _ => none

/-- `true` when the target matches one of the recognized shape
branches. -/
def recognized (t : EmptyTarget) : Bool :=
  (seqLength? t).isSome || (collSize? t).isSome

/-- String coercion of an `isEmpty` target, for the failure messages. -/
def fmtTarget : EmptyTarget → String
  | .str s => s
  | .arr xs => fmtPrimList xs
  | .nodeList _ => "[object NodeList]"
  | .map _ => "[object Map]"
  | .set _ => "[object Set]"
  | .other v => fmtJVal v

/-- `isEmpty(target)`: strings, arrays and NodeLists pass on
`length === 0`; Maps and Sets pass on `size === 0`; any other shape
falls through to the generic failure.  Because `fail` throws, the
trailing generic `fail` is reachable only when neither branch
matched. -/
def isEmpty (target : EmptyTarget) : Outcome :=
  match seqLength? target with
  | some n =>
    if n = 0 then .pass
    else fail ("Expected " ++ fmtTarget target ++ " to be empty")
  | none =>
    match collSize? target with
    | some n =>
      if n = 0 then .pass
      else fail ("Expected " ++ fmtTarget target ++ " to be empty")
    | none => fail ("Didn't know how to check if " ++ fmtTarget target ++ " is empty")

/-- `isNotEmpty(target)`: the same dispatch as `isEmpty` with the
emptiness tests negated (`length !== 0`, `size !== 0`), and the same
generic fall-through failure for unrecognized shapes. -/
def isNotEmpty (target : EmptyTarget) : Outcome :=
  match seqLength? target with
  | some n =>
    if n ≠ 0 then .pass
    else fail ("Expected " ++ fmtTarget target ++ " to be not empty")
  | none =>
    match collSize? target with
    | some n =>
      if n ≠ 0 then .pass
      else fail ("Expected " ++ fmtTarget target ++ " to be not empty")
    | none => fail ("Didn't know how to check if " ++ fmtTarget target ++ " is not empty")

/-- C5: `fail(message)` never returns normally: for every input string,
including the empty (falsy) string, it signals a failure whose
description is exactly the given message, with no default message
substituted. -/
theorem fail_contract :
    (∀ m : String, fail m = Outcome.failure m) ∧
    (∀ m : String, passes (fail m) = false) ∧
    fail "" = Outcome.failure "" :=
  ⟨fun _ => rfl, fun _ => rfl, rfl⟩

/-- C2: `throws(fn, pattern)` follows the two-checkpoint contract: a
normally-returning `fn` fails with exactly "Expected function to
throw"; a non-`Error` throwable passes; an `Error` passes exactly when
its message matches the pattern, and otherwise fails with the mismatch
message. -/
theorem throws_contract :
    (∀ el : ErrorLike, throws .ret el = .failure "Expected function to throw") ∧
    (∀ el : ErrorLike, throws .throwNonError el = .pass) ∧
    (∀ (m : String) (el : ErrorLike), passes (throws (.throwErr m) el) = el.test m) ∧
    (∀ (m : String) (el : ErrorLike),
      throws (.throwErr m) el =
        if el.test m then .pass
        else .failure ("Expected error message " ++ m ++ " to match " ++ el.text)) := by
  refine ⟨fun _ => rfl, fun _ => rfl, ?_, fun _ _ => rfl⟩
  intro m el
  by_cases h : el.test m = true
  · simp [throws, h, passes]
  · simp only [Bool.not_eq_true] at h
    simp [throws, h, passes, fail]

/-- C4: `isEmpty` dispatches on the runtime shape of its target:
sequence-like targets (string, array, NodeList) pass exactly when their
length is 0, Maps and Sets pass exactly when their size is 0, and every
other shape fails with the "Didn't know how to check" message.  In
particular `isEmpty("")` passes (returning normally, so the trailing
generic failure never fires after a successful shape-specific check),
`isEmpty("x")` fails, `isEmpty(new Map())` passes and a one-entry Map
fails. -/
theorem isEmpty_dispatch :
    (∀ s : String, isEmpty (.str s) = .pass ↔ s.length = 0) ∧
    (∀ xs : List Prim, isEmpty (.arr xs) = .pass ↔ xs.length = 0) ∧
    (∀ n : Nat, isEmpty (.nodeList n) = .pass ↔ n = 0) ∧
    (∀ es : List (Prim × Prim), isEmpty (.map es) = .pass ↔ es.length = 0) ∧
    (∀ xs : List Prim, isEmpty (.set xs) = .pass ↔ xs.length = 0) ∧
    (∀ v : JVal,
      isEmpty (.other v) = .failure ("Didn't know how to check if " ++ fmtJVal v ++ " is empty")) ∧
    isEmpty (.str "") = .pass ∧
    passes (isEmpty (.str "x")) = false ∧
    isEmpty (.map []) = .pass ∧
    (∀ e : Prim × Prim, passes (isEmpty (.map [e])) = false) := by
  refine ⟨?_, ?_, ?_, ?_, ?_, fun _ => rfl, rfl, rfl, rfl, fun _ => rfl⟩
  · intro s
    by_cases h : s.length = 0 <;> simp [isEmpty, seqLength?, fail, h]
  · intro xs
    by_cases h : xs.length = 0 <;> simp [isEmpty, seqLength?, fail, h]
  · intro n
    by_cases h : n = 0 <;> simp [isEmpty, seqLength?, fail, h]
  · intro es
    by_cases h : es.length = 0 <;> simp [isEmpty, seqLength?, collSize?, fail, h]
  · intro xs
    by_cases h : xs.length = 0 <;> simp [isEmpty, seqLength?, collSize?, fail, h]

/-- C7: `isOk(x, m)` passes exactly on truthy `x`; on falsy `x` it
fails carrying the caller's message when that message is non-falsy and
otherwise the synthesized default embedding `x`'s formatted value. -/
theorem isOk_contract :
    (∀ (x : JVal) (m : String), passes (isOk x m) = truthy x) ∧
    (∀ (x : JVal) (m : String),
      isOk x m =
        if truthy x then .pass
        else .failure (if m = "" then "Expected " ++ fmtJVal x ++ " to be ok" else m)) := by
  constructor
  · intro x m
    by_cases h : truthy x = true
    · simp [isOk, h, passes]
    · simp only [Bool.not_eq_true] at h
      simp [isOk, h, passes, fail]
  · intro x m
    by_cases h : truthy x = true
    · simp [isOk, h]
    · simp only [Bool.not_eq_true] at h
      simp [isOk, h, fail, msgOr]

theorem jsIncludes_iff (h : List Prim) (n : Prim) :
    jsIncludes h n = true ↔ ∃ x, x ∈ h ∧ sameValueZero x n = true := by
  simp [jsIncludes, List.any_eq_true]

/-- C9: `include(haystack, needle, m)` passes exactly when some element
of the haystack equals the needle under SameValueZero, with no loose
coercion: the haystack `["1"]` does not include the number `1` even
though `equal(1, "1", m)` passes; `notInclude` passes exactly when no
such element exists. -/
theorem include_sameValueZero :
    (∀ (h : List Prim) (n : Prim) (m : String),
      include' h n m = .pass ↔ ∃ x, x ∈ h ∧ sameValueZero x n = true) ∧
    (∀ (h : List Prim) (n : Prim) (m : String),
      passes (include' h n m) = h.any (fun x => sameValueZero x n)) ∧
    (∀ (h : List Prim) (n : Prim) (m : String),
      passes (notInclude h n m) = !(h.any (fun x => sameValueZero x n))) ∧
    passes (include' [Prim.str "1"] (Prim.int 1) "") = false ∧
    equal (Prim.int 1) (Prim.str "1") "" = .pass := by
  refine ⟨?_, ?_, ?_, rfl, rfl⟩
  · intro h n m
    rw [← jsIncludes_iff]
    cases hin : jsIncludes h n with
    | true => simp [include', hin]
    | false => simp [include', hin, fail]
  · intro h n m
    cases hin : jsIncludes h n with
    | true =>
      have := hin
      rw [jsIncludes] at this
      simp [include', hin, passes, this]
    | false =>
      have := hin
      rw [jsIncludes] at this
      simp [include', hin, passes, fail, this]
  · intro h n m
    cases hin : jsIncludes h n with
    | true =>
      have := hin
      rw [jsIncludes] at this
      simp [notInclude, hin, passes, fail, this]
    | false =>
      have := hin
      rw [jsIncludes] at this
      simp [notInclude, hin, passes, this]

/-- C10: `containsAllKeys(thing, [], m)` passes for every object: the
`every` test over an empty key list is vacuously true. -/
theorem containsAllKeys_empty :
    ∀ (thing : List (String × JVal)) (m : String), containsAllKeys thing [] m = .pass :=
  fun _ _ => rfl

theorem _deepEqual_unfold (a b : JVal) :
    _deepEqual a b =
      (if sameRef a b then some true
       else
         match jsKeys a, jsKeys b with
         | none, _ => none
         | some _, none => none
         | some ka, some kb =>
           if ka.length ≠ kb.length then some false
           else
             match b with
             | .prim _ => if ka.isEmpty then some true else none
             | .obj bf => _deepEqualKeys a bf ka) := by
  rw [_deepEqual]

theorem _deepEqualKeys_nil (a : JVal) (bf : List (String × JVal)) :
    _deepEqualKeys a bf [] = some true := by
  rw [_deepEqualKeys]

theorem _deepEqualKeys_cons (a : JVal) (bf : List (String × JVal)) (k : String)
    (rest : List String) :
    _deepEqualKeys a bf (k :: rest) =
      (if (bf.any fun p => p.1 == k) = true then
        match _deepEqual (getProp a k) (lookupField bf k) with
        | none => none
        | some false => some false
        | some true => _deepEqualKeys a bf rest
      else some false) := by
  rw [_deepEqualKeys]
  by_cases h : (bf.any fun p => p.1 == k) = true <;> simp [h]

theorem sizeOf_pos (a : JVal) : 1 ≤ sizeOf a := by
  cases a <;> simp

theorem primStrictEq_symm (p q : Prim) : primStrictEq p q = primStrictEq q p := by
  cases p <;> cases q <;> simp [primStrictEq]
  all_goals exact eq_comm

theorem sameRef_symm (a b : JVal) : sameRef a b = sameRef b a := by
  cases a <;> cases b <;> simp [sameRef, primStrictEq_symm]

theorem keyAny_iff (bf : List (String × JVal)) (k : String) :
    (bf.any fun p => p.1 == k) = true ↔ k ∈ bf.map Prod.fst := by
  simp [List.any_eq_true, List.mem_map]

theorem distinctKeys_iff_nodup (l : List String) : distinctKeys l = true ↔ l.Nodup := by
  induction l with
  | nil => simp [distinctKeys]
  | cons k rest ih =>
    simp [distinctKeys, ih, List.nodup_cons, List.contains, List.elem_iff]

theorem wf_obj_iff (af : List (String × JVal)) :
    wf (.obj af) = true ↔
      distinctKeys (af.map Prod.fst) = true ∧ wfFields af = true := by
  rw [wf]
  simp [Bool.and_eq_true]

theorem wfFields_lookup (af : List (String × JVal)) (k : String) :
    wfFields af = true → wf (lookupField af k) = true := by
  induction af with
  | nil =>
    intro _
    simp [lookupField, wf]
  | cons hd tl ih =>
    obtain ⟨k', v⟩ := hd
    intro h
    rw [wfFields] at h
    simp only [Bool.and_eq_true] at h
    rw [lookupField]
    by_cases hk : (k' == k) = true
    · rw [if_pos hk]
      exact h.1
    · rw [if_neg hk]
      exact ih h.2

theorem dek_true_iff (a : JVal) (bf : List (String × JVal)) (ks : List String) :
    _deepEqualKeys a bf ks = some true ↔
      ∀ k ∈ ks, (bf.any fun p => p.1 == k) = true ∧
        _deepEqual (getProp a k) (lookupField bf k) = some true := by
  induction ks with
  | nil => simp [_deepEqualKeys_nil]
  | cons k rest ih =>
    rw [_deepEqualKeys_cons]
    by_cases hk : (bf.any fun p => p.1 == k) = true
    · rw [if_pos hk]
      cases hd : _deepEqual (getProp a k) (lookupField bf k) with
      | none =>
        simp only [List.mem_cons]
        constructor
        · intro hfalse
          cases hfalse
        · intro hall
          have := (hall k (Or.inl rfl)).2
          rw [hd] at this
          cases this
      | some bb =>
        cases bb with
        | false =>
          simp only [List.mem_cons]
          constructor
          · intro hfalse
            cases hfalse
          · intro hall
            have := (hall k (Or.inl rfl)).2
            rw [hd] at this
            cases this
        | true =>
          rw [ih]
          simp only [List.mem_cons]
          constructor
          · intro hall k' hk'
            rcases hk' with rfl | hk'
            · exact ⟨hk, hd⟩
            · exact hall k' hk'
          · intro hall k' hk'
            exact hall k' (Or.inr hk')
    · rw [if_neg hk]
      simp only [List.mem_cons]
      constructor
      · intro hfalse
        cases hfalse
      · intro hall
        exact absurd (hall k (Or.inl rfl)).1 hk

theorem dek_false_exists (a : JVal) (bf : List (String × JVal)) (ks : List String) :
    _deepEqualKeys a bf ks = some false →
      ∃ k, k ∈ ks ∧ ((bf.any fun p => p.1 == k) = false ∨
        _deepEqual (getProp a k) (lookupField bf k) = some false) := by
  induction ks with
  | nil =>
    rw [_deepEqualKeys_nil]
    intro h
    cases h
  | cons k rest ih =>
    rw [_deepEqualKeys_cons]
    by_cases hk : (bf.any fun p => p.1 == k) = true
    · rw [if_pos hk]
      cases hd : _deepEqual (getProp a k) (lookupField bf k) with
      | none =>
        intro h
        cases h
      | some bb =>
        cases bb with
        | false =>
          intro _
          exact ⟨k, List.mem_cons_self k rest, Or.inr hd⟩
        | true =>
          intro h
          obtain ⟨k', hk', hc⟩ := ih h
          exact ⟨k', List.mem_cons_of_mem k hk', hc⟩
    · rw [if_neg hk]
      intro _
      refine ⟨k, List.mem_cons_self k rest, Or.inl ?_⟩
      cases hkk : (bf.any fun p => p.1 == k) with
      | false => rfl
      | true => exact absurd hkk hk

theorem _deepEqual_refl_aux :
    ∀ (n : Nat) (a : JVal), sizeOf a ≤ n → _deepEqual a a = some true := by
  intro n
  induction n with
  | zero =>
    intro a h
    have := sizeOf_pos a
    omega
  | succ n ih =>
    intro a _h
    cases a with
    | prim p =>
      cases p <;>
        simp [_deepEqual_unfold, sameRef, primStrictEq, jsKeys, List.isEmpty]
    | obj af =>
      rw [_deepEqual_unfold]
      simp only [sameRef, jsKeys, Bool.false_eq_true, if_false, ne_eq, not_true_eq_false]
      rw [dek_true_iff]
      intro k hk
      have hany : (af.any fun p => p.1 == k) = true := (keyAny_iff af k).mpr hk
      refine ⟨hany, ?_⟩
      have hlt := lookupField_sizeOf_lt af k hany
      have hsz : sizeOf (JVal.obj af) = 1 + sizeOf af := by simp
      have : _deepEqual (lookupField af k) (lookupField af k) = some true := by
        apply ih
        omega
      simpa [getProp] using this

/-- `_deepEqual` returns `true` on any value compared with itself (in
JavaScript: by the `===` short-circuit for a shared reference, and by
the structural recursion for a structurally identical copy). -/
theorem _deepEqual_refl (a : JVal) : _deepEqual a a = some true :=
  _deepEqual_refl_aux (sizeOf a) a le_rfl

theorem _deepEqual_of_sameRef (a b : JVal) (h : sameRef a b = true) :
    _deepEqual a b = some true := by
  rw [_deepEqual_unfold, if_pos h]

theorem _deepEqual_keysA_none (a b : JVal) (hsr : sameRef a b = false)
    (hka : jsKeys a = none) : _deepEqual a b = none := by
  rw [_deepEqual_unfold, hsr, hka]
  simp

theorem _deepEqual_keysB_none (a b : JVal) (ka : List String) (hsr : sameRef a b = false)
    (hka : jsKeys a = some ka) (hkb : jsKeys b = none) : _deepEqual a b = none := by
  rw [_deepEqual_unfold, hsr, hka, hkb]
  simp

theorem _deepEqual_somesome (a b : JVal) (ka kb : List String) (hsr : sameRef a b = false)
    (hka : jsKeys a = some ka) (hkb : jsKeys b = some kb) :
    _deepEqual a b =
      (if ka.length ≠ kb.length then some false
       else
         match b with
         | .prim _ => if ka.isEmpty then some true else none
         | .obj bf => _deepEqualKeys a bf ka) := by
  rw [_deepEqual_unfold, hsr, hka, hkb]
  cases b <;> by_cases hll : ka.length = kb.length <;> simp [hll]

theorem dek_obj_asym_contra
    (N : Nat)
    (ih : ∀ (a b : JVal) (x y : Bool), sizeOf a + sizeOf b ≤ N →
      wf a = true → wf b = true →
      _deepEqual a b = some x → _deepEqual b a = some y → x = y)
    (af bf : List (String × JVal))
    (hwa : wf (.obj af) = true) (hwb : wf (.obj bf) = true)
    (hl : (af.map Prod.fst).length = (bf.map Prod.fst).length)
    (hsz : sizeOf (JVal.obj af) + sizeOf (JVal.obj bf) ≤ N + 1)
    (ht : _deepEqualKeys (.obj af) bf (af.map Prod.fst) = some true)
    (hf : _deepEqualKeys (.obj bf) af (bf.map Prod.fst) = some false) : False := by
  have hnda : (af.map Prod.fst).Nodup :=
    (distinctKeys_iff_nodup _).mp ((wf_obj_iff af).mp hwa).1
  have hsub : af.map Prod.fst ⊆ bf.map Prod.fst := by
    intro k hk
    exact (keyAny_iff bf k).mp ((dek_true_iff _ _ _).mp ht k hk).1
  have hperm : List.Perm (af.map Prod.fst) (bf.map Prod.fst) :=
    (hnda.subperm hsub).perm_of_length_le (le_of_eq hl.symm)
  obtain ⟨k, hkb, hcase⟩ := dek_false_exists _ _ _ hf
  have hka : k ∈ af.map Prod.fst := hperm.mem_iff.mpr hkb
  have hanya : (af.any fun p => p.1 == k) = true := (keyAny_iff af k).mpr hka
  rcases hcase with hmiss | hrec
  · rw [hanya] at hmiss
    cases hmiss
  · have htk := (dek_true_iff _ _ _).mp ht k hka
    have hrec1 : _deepEqual (lookupField af k) (lookupField bf k) = some true := by
      simpa [getProp] using htk.2
    have hrec2 : _deepEqual (lookupField bf k) (lookupField af k) = some false := by
      simpa [getProp] using hrec
    have hlt1 := lookupField_sizeOf_lt af k hanya
    have hlt2 := lookupField_sizeOf_lt bf k htk.1
    have e1 : sizeOf (JVal.obj af) = 1 + sizeOf af := by simp
    have e2 : sizeOf (JVal.obj bf) = 1 + sizeOf bf := by simp
    have hwl1 : wf (lookupField af k) = true := wfFields_lookup af k ((wf_obj_iff af).mp hwa).2
    have hwl2 : wf (lookupField bf k) = true := wfFields_lookup bf k ((wf_obj_iff bf).mp hwb).2
    have := ih (lookupField af k) (lookupField bf k) true false (by omega) hwl1 hwl2 hrec1 hrec2
    cases this

theorem _deepEqual_symm_aux :
    ∀ (N : Nat) (a b : JVal) (x y : Bool), sizeOf a + sizeOf b ≤ N →
      wf a = true → wf b = true →
      _deepEqual a b = some x → _deepEqual b a = some y → x = y := by
  intro N
  induction N with
  | zero =>
    intro a b x y hsz _ _ _ _
    have ha := sizeOf_pos a
    have hb := sizeOf_pos b
    omega
  | succ N ih =>
    intro a b x y hsz hwa hwb hab hba
    by_cases hsr : sameRef a b = true
    · rw [_deepEqual_of_sameRef a b hsr] at hab
      rw [_deepEqual_of_sameRef b a (by rw [sameRef_symm]; exact hsr)] at hba
      injection hab with hab
      injection hba with hba
      rw [← hab, ← hba]
    · have hsrf : sameRef a b = false := by
        cases hq : sameRef a b with
        | false => rfl
        | true => exact absurd hq hsr
      have hsrf' : sameRef b a = false := by rw [← sameRef_symm]; exact hsrf
      cases hka : jsKeys a with
      | none =>
        rw [_deepEqual_keysA_none a b hsrf hka] at hab
        cases hab
      | some ka =>
        cases hkb : jsKeys b with
        | none =>
          rw [_deepEqual_keysB_none a b ka hsrf hka hkb] at hab
          cases hab
        | some kb =>
          rw [_deepEqual_somesome a b ka kb hsrf hka hkb] at hab
          rw [_deepEqual_somesome b a kb ka hsrf' hkb hka] at hba
          by_cases hl : ka.length = kb.length
          · rw [if_neg (by simp [hl])] at hab
            rw [if_neg (by simp [hl])] at hba
            cases a with
            | prim pa =>
              cases b with
              | prim pb =>
                dsimp only at hab hba
                cases ka with
                | nil =>
                  have hkbe : kb = [] := by
                    have : kb.length = 0 := by simpa using hl.symm
                    exact List.length_eq_zero.mp this
                  subst hkbe
                  simp at hab hba
                  rw [hab, hba]
                | cons k kt =>
                  simp at hab
              | obj bf =>
                dsimp only at hab hba
                cases kb with
                | nil =>
                  have hkae : ka = [] := by
                    have : ka.length = 0 := by simpa using hl
                    exact List.length_eq_zero.mp this
                  subst hkae
                  rw [_deepEqualKeys_nil] at hab
                  simp at hab hba
                  rw [hab, hba]
                | cons k kt =>
                  simp at hba
            | obj af =>
              cases b with
              | prim pb =>
                dsimp only at hab hba
                cases ka with
                | nil =>
                  have hkbe : kb = [] := by
                    have : kb.length = 0 := by simpa using hl.symm
                    exact List.length_eq_zero.mp this
                  subst hkbe
                  rw [_deepEqualKeys_nil] at hba
                  simp at hab hba
                  rw [hab, hba]
                | cons k kt =>
                  simp at hab
              | obj bf =>
                dsimp only at hab hba
                have hka' : af.map Prod.fst = ka := by
                  simpa [jsKeys] using hka
                have hkb' : bf.map Prod.fst = kb := by
                  simpa [jsKeys] using hkb
                subst hka'
                subst hkb'
                cases x with
                | true =>
                  cases y with
                  | true => rfl
                  | false =>
                    exact absurd (dek_obj_asym_contra N ih af bf hwa hwb hl hsz hab hba) id
                | false =>
                  cases y with
                  | false => rfl
                  | true =>
                    exact absurd
                      (dek_obj_asym_contra N ih bf af hwb hwa hl.symm (by omega) hba hab) id
          · rw [if_pos hl] at hab
            rw [if_pos (fun hq => hl hq.symm)] at hba
            injection hab with hab
            injection hba with hba
            rw [← hab, ← hba]

/-- C1: `_deepEqual(a, b)` returns true exactly when `a` and `b` are
the identical reference (`sameRef`, the `===` short-circuit) or the
own-enumerable key counts of `a` and `b` agree and every own-enumerable
key `k` of `a` is present in `b` (`key in obj2`) with
`_deepEqual(a[k], b[k])` true.  In particular it returns true on every
value compared with an identical copy of itself, and false on two
records with differing key counts. -/
theorem deepEqual_helper_spec :
    (∀ a b : JVal, _deepEqual a b = some true ↔
      (sameRef a b = true ∨
        ∃ ka kb, jsKeys a = some ka ∧ jsKeys b = some kb ∧ ka.length = kb.length ∧
          ∀ k ∈ ka, hasKeyIn k b = some true ∧
            _deepEqual (getProp a k) (getProp b k) = some true)) ∧
    (∀ a : JVal, _deepEqual a a = some true) ∧
    (∀ af bf : List (String × JVal),
      (af.map Prod.fst).length ≠ (bf.map Prod.fst).length →
      _deepEqual (.obj af) (.obj bf) = some false) := by
  refine ⟨?_, _deepEqual_refl, ?_⟩
  · intro a b
    by_cases hsr : sameRef a b = true
    · rw [_deepEqual_of_sameRef a b hsr]
      simp [hsr]
    · have hsrf : sameRef a b = false := by
        cases hq : sameRef a b with
        | false => rfl
        | true => exact absurd hq hsr
      cases hka : jsKeys a with
      | none =>
        rw [_deepEqual_keysA_none a b hsrf hka]
        constructor
        · intro hc
          cases hc
        · rintro (hc | ⟨ka', kb', hka', hkb', hl', hall'⟩)
          · rw [hc] at hsrf
            cases hsrf
          · cases hka'
      | some ka =>
        cases hkb : jsKeys b with
        | none =>
          rw [_deepEqual_keysB_none a b ka hsrf hka hkb]
          constructor
          · intro hc
            cases hc
          · rintro (hc | ⟨ka', kb', hka', hkb', hl', hall'⟩)
            · rw [hc] at hsrf
              cases hsrf
            · cases hkb'
        | some kb =>
          rw [_deepEqual_somesome a b ka kb hsrf hka hkb]
          by_cases hl : ka.length = kb.length
          · rw [if_neg (by simp [hl])]
            cases b with
            | prim pb =>
              cases ka with
              | nil =>
                simp only [List.isEmpty_nil, if_true]
                constructor
                · intro _
                  exact Or.inr ⟨[], kb, rfl, rfl, hl, by simp⟩
                · intro _
                  trivial
              | cons k kt =>
                simp only [List.isEmpty_cons, Bool.false_eq_true, if_false]
                constructor
                · intro hc
                  cases hc
                · rintro (hc | ⟨ka', kb', hka', hkb', hl', hall'⟩)
                  · rw [hc] at hsrf
                    cases hsrf
                  · injection hka' with e1
                    subst e1
                    have := (hall' k (List.mem_cons_self k kt)).1
                    rw [hasKeyIn] at this
                    cases this
            | obj bf =>
              rw [dek_true_iff]
              constructor
              · intro hall
                refine Or.inr ⟨ka, kb, rfl, rfl, hl, ?_⟩
                intro k hk
                obtain ⟨h1, h2⟩ := hall k hk
                refine ⟨by rw [hasKeyIn, h1], ?_⟩
                simpa [getProp] using h2
              · rintro (hc | ⟨ka', kb', hka', hkb', hl', hall'⟩)
                · rw [hc] at hsrf
                  cases hsrf
                · injection hka' with e1
                  subst e1
                  intro k hk
                  obtain ⟨h1, h2⟩ := hall' k hk
                  rw [hasKeyIn] at h1
                  injection h1 with h1
                  refine ⟨h1, ?_⟩
                  simpa [getProp] using h2
          · rw [if_pos hl]
            constructor
            · intro hc
              cases hc
            · rintro (hc | ⟨ka', kb', hka', hkb', hl', hall'⟩)
              · rw [hc] at hsrf
                cases hsrf
              · injection hka' with e1
                injection hkb' with e2
                subst e1
                subst e2
                exact absurd hl' hl
  · intro af bf hne
    rw [_deepEqual_somesome (.obj af) (.obj bf) (af.map Prod.fst) (bf.map Prod.fst)
      rfl rfl rfl]
    rw [if_pos hne]

theorem deepEqual_helper_spec_witness :
    _deepEqual (.obj [("a", JVal.prim (.int 1))]) (.obj []) = some false :=
  deepEqual_helper_spec.2.2 [("a", JVal.prim (.int 1))] [] (by decide)

/-- C3 (amended): each negated assertion passes exactly when its
positive counterpart fails, for `notEqual`/`equal`,
`notStrictEqual`/`strictEqual` and `isNotOk`/`isOk` on every input; for
`notDeepEqual`/`deepEqual` whenever the structural comparison completes
without throwing (when it throws, both calls propagate the TypeError
and neither passes); and for `isNotEmpty`/`isEmpty` on every target of
recognized shape (string, array, NodeList, Map, Set) — on a target of
unrecognized shape both fail with the generic "Didn't know" failure. -/
theorem neg_pair_roundtrip :
    (∀ (a b : Prim) (m : String), passes (notEqual a b m) = !passes (equal a b m)) ∧
    (∀ (a b : Prim) (m : String),
      passes (notStrictEqual a b m) = !passes (strictEqual a b m)) ∧
    (∀ (x : JVal) (m : String), passes (isNotOk x m) = !passes (isOk x m)) ∧
    (∀ (a b : JVal) (m : String), (_deepEqual a b).isSome = true →
      passes (notDeepEqual a b m) = !passes (deepEqual a b m)) ∧
    (∀ t : EmptyTarget, recognized t = true →
      passes (isNotEmpty t) = !passes (isEmpty t)) := by
  refine ⟨?_, ?_, ?_, ?_, ?_⟩
  · intro a b m
    cases h : looseEq a b <;> simp [equal, notEqual, h, passes, fail]
  · intro a b m
    cases h : primStrictEq a b <;> simp [strictEqual, notStrictEqual, h, passes, fail]
  · intro x m
    cases h : truthy x <;> simp [isOk, isNotOk, h, passes, fail]
  · intro a b m hs
    cases hd : _deepEqual a b with
    | none =>
      rw [hd] at hs
      cases hs
    | some bb =>
      cases bb <;> simp [deepEqual, notDeepEqual, hd, passes, fail]
  · intro t hr
    cases t with
    | str s =>
      by_cases h : s.length = 0 <;>
        simp [isEmpty, isNotEmpty, seqLength?, h, passes, fail]
    | arr xs =>
      by_cases h : xs.length = 0 <;>
        simp [isEmpty, isNotEmpty, seqLength?, h, passes, fail]
    | nodeList n =>
      by_cases h : n = 0 <;>
        simp [isEmpty, isNotEmpty, seqLength?, h, passes, fail]
    | map es =>
      by_cases h : es.length = 0 <;>
        simp [isEmpty, isNotEmpty, seqLength?, collSize?, h, passes, fail]
    | set xs =>
      by_cases h : xs.length = 0 <;>
        simp [isEmpty, isNotEmpty, seqLength?, collSize?, h, passes, fail]
    | other v =>
      simp [recognized, seqLength?, collSize?] at hr

theorem neg_pair_roundtrip_witness :
    passes (notDeepEqual (.prim (.int 1)) (.prim (.int 1)) "") =
      !passes (deepEqual (.prim (.int 1)) (.prim (.int 1)) "") ∧
    passes (isNotEmpty (.str "")) = !passes (isEmpty (.str "")) :=
  ⟨neg_pair_roundtrip.2.2.2.1 _ _ "" (by rw [_deepEqual_refl]; rfl),
   neg_pair_roundtrip.2.2.2.2 (.str "") rfl⟩

/-- C3 counterexample: for the unrecognized-shape target `0`, `isEmpty`
fails yet `isNotEmpty` does not pass (both hit the generic fall-through
failure); and for the record pair `{x: null}` / `{x: undefined}` the
structural comparison throws a TypeError, so `deepEqual` fails yet
`notDeepEqual` does not pass either.  This refutes the round-trip as
stated for those inputs. -/
theorem neg_pair_roundtrip_cex :
    passes (isEmpty (.other (.prim (.int 0)))) = false ∧
    passes (isNotEmpty (.other (.prim (.int 0)))) = false ∧
    passes (deepEqual (.obj [("x", .prim .null)]) (.obj [("x", .prim .undefined)]) "") = false ∧
    passes (notDeepEqual (.obj [("x", .prim .null)]) (.obj [("x", .prim .undefined)]) "") = false := by
  have hnone : _deepEqual (.obj [("x", .prim .null)]) (.obj [("x", .prim .undefined)]) = none := by
    simp [_deepEqual, _deepEqualKeys, sameRef, jsKeys, getProp, lookupField, primStrictEq]
  exact ⟨rfl, rfl, by simp [deepEqual, hnone, passes], by simp [notDeepEqual, hnone, passes]⟩

theorem contains_iff (l : List String) (k : String) : l.contains k = true ↔ k ∈ l := by
  simp [List.contains, List.elem_iff]

theorem hasAllKeys_pass_iff (thing : List (String × JVal)) (keys : List String) (m : String) :
    hasAllKeys thing keys m = .pass ↔
      ((thing.map Prod.fst).length = keys.length ∧ keys ⊆ thing.map Prod.fst) := by
  simp only [hasAllKeys]
  by_cases hc : ((thing.map Prod.fst).length == keys.length &&
      keys.all fun key => (thing.map Prod.fst).contains key) = true
  · rw [if_pos hc]
    simp only [Bool.and_eq_true, beq_iff_eq, List.all_eq_true] at hc
    constructor
    · intro _
      exact ⟨hc.1, fun k hk => (contains_iff _ _).mp (hc.2 k hk)⟩
    · intro _
      rfl
  · rw [if_neg hc]
    constructor
    · intro hfail
      simp [fail] at hfail
    · rintro ⟨h1, h2⟩
      exfalso
      apply hc
      simp only [Bool.and_eq_true, beq_iff_eq, List.all_eq_true]
      exact ⟨h1, fun k hk => (contains_iff _ _).mpr (h2 hk)⟩

/-- C6 (amended): `hasAllKeys(thing, keys, m)` passes exactly when the
number of own keys of `thing` equals the *length* of the given key list
(duplicates counted) and every listed key is an own key.  For a
duplicate-free key list this coincides with exact own-key-set equality,
but a key list with duplicates can make it pass although the key sets
differ. -/
theorem hasAllKeys_spec :
    (∀ (thing : List (String × JVal)) (keys : List String) (m : String),
      hasAllKeys thing keys m = .pass ↔
        ((thing.map Prod.fst).length = keys.length ∧ keys ⊆ thing.map Prod.fst)) ∧
    (∀ (thing : List (String × JVal)) (keys : List String) (m : String),
      keys.Nodup → (thing.map Prod.fst).Nodup →
      (hasAllKeys thing keys m = .pass ↔
        keys.toFinset = (thing.map Prod.fst).toFinset)) := by
  refine ⟨hasAllKeys_pass_iff, ?_⟩
  intro thing keys m hnk hnt
  rw [hasAllKeys_pass_iff]
  constructor
  · rintro ⟨hlen, hsub⟩
    have hperm : List.Perm keys (thing.map Prod.fst) :=
      (hnk.subperm hsub).perm_of_length_le (le_of_eq hlen)
    ext k
    simp only [List.mem_toFinset]
    exact hperm.mem_iff
  · intro hset
    have hmem : ∀ k, k ∈ keys ↔ k ∈ thing.map Prod.fst := by
      intro k
      rw [← List.mem_toFinset, ← List.mem_toFinset (l := thing.map Prod.fst), hset]
    constructor
    · have h1 : keys.toFinset.card = keys.length := List.toFinset_card_of_nodup hnk
      have h2 : (thing.map Prod.fst).toFinset.card = (thing.map Prod.fst).length :=
        List.toFinset_card_of_nodup hnt
      rw [← h1, ← h2, hset]
    · intro k hk
      exact (hmem k).mp hk

theorem hasAllKeys_spec_witness :
    (["a"] : List String).Nodup ∧
    (hasAllKeys [("a", JVal.prim (.int 1))] ["a"] "" = .pass ↔
      (["a"] : List String).toFinset =
        ([("a", JVal.prim (.int 1))].map Prod.fst).toFinset) :=
  ⟨by decide, hasAllKeys_spec.2 [("a", JVal.prim (.int 1))] ["a"] "" (by decide) (by decide)⟩

/-- C6 counterexample: with the duplicate key list `["a", "a"]` and the
two-key record `{a: 1, b: 2}`, `hasAllKeys` passes (the list length
matches the own-key count and every listed key is an own key), yet the
own-key set contains `"b"` while the given key set does not — the sets
are not equal, refuting the claim as stated. -/
theorem hasAllKeys_set_cex :
    hasAllKeys [("a", JVal.prim (.int 1)), ("b", JVal.prim (.int 2))] ["a", "a"] "m" = .pass ∧
    ([("a", JVal.prim (.int 1)), ("b", JVal.prim (.int 2))].map Prod.fst).contains "b" = true ∧
    (["a", "a"] : List String).contains "b" = false :=
  ⟨rfl, rfl, rfl⟩

/-- C8 (amended): `_deepEqual` is symmetric on well-formed values
(records with duplicate-free keys, as every JavaScript object is)
whenever both directions return a boolean: the booleans agree.  (When
one direction throws a TypeError the other may still return, see the
counterexample.) -/
theorem deepEqual_symm :
    ∀ (a b : JVal) (x y : Bool), wf a = true → wf b = true →
      _deepEqual a b = some x → _deepEqual b a = some y → x = y :=
  fun a b x y hwa hwb hab hba =>
    _deepEqual_symm_aux (sizeOf a + sizeOf b) a b x y le_rfl hwa hwb hab hba

theorem deepEqual_symm_witness :
    wf (JVal.obj [("a", JVal.prim (.int 1))]) = true ∧ (true : Bool) = true :=
  ⟨by simp [wf, wfFields, distinctKeys],
   deepEqual_symm (JVal.obj [("a", JVal.prim (.int 1))]) (JVal.obj [("a", JVal.prim (.int 1))])
     true true (by simp [wf, wfFields, distinctKeys]) (by simp [wf, wfFields, distinctKeys])
     (_deepEqual_refl _) (_deepEqual_refl _)⟩

/-- C8 counterexample: for the records `a = {q: 1, p: "ab"}` and
`b = {p: "cd", r: 1}`, `_deepEqual(a, b)` returns false (it hits the
missing key `q` first), but `_deepEqual(b, a)` throws a TypeError (it
first recurses into `_deepEqual("cd", "ab")`, whose key loop evaluates
`'0' in "ab"` on a primitive string) — so the two directions do not
return the same boolean. -/
theorem deepEqual_symm_cex :
    _deepEqual (.obj [("q", .prim (.int 1)), ("p", .prim (.str "ab"))])
        (.obj [("p", .prim (.str "cd")), ("r", .prim (.int 1))]) = some false ∧
    _deepEqual (.obj [("p", .prim (.str "cd")), ("r", .prim (.int 1))])
        (.obj [("q", .prim (.int 1)), ("p", .prim (.str "ab"))]) = none := by
  constructor <;>
    simp [_deepEqual, _deepEqualKeys, sameRef, jsKeys, getProp, lookupField, primStrictEq]

end JsAssert
